import Mathlib

/-!
Shallow embedding of the `FixedEye` environment
(`UIB/envs/mobl_arms/models/FixedEye.py`) and of the sine-wave trajectory
generator (`UIB/test/evaluate-tracking.py`), together with theorems settling
the specification claims.

Numeric values are modelled over an arbitrary linear ordered field `K`
(instantiated with `ℚ` for concrete evaluation and with `ℝ` where the claim
needs `π`, continuity or `sin`).  The external simulation backend (MuJoCo) is
modelled abstractly: `sim.forward()` and `sim.reset()` become opaque
state-transformers on the mutable simulation arrays, and the renderer becomes
a pair of pixel functions carried in the simulation state.  The constant
`np.pi` is carried as the field `piv`, and `np.sin` as an explicit function
argument, so that every definition stays executable.
-/

namespace UIB

variable {K : Type*} [LinearOrderedField K] {E : Type*}

/-- Python `np.clip(x, lo, hi)`: values below `lo` map to `lo`, above `hi` to `hi`. -/
def npclip (x lo hi : K) : K := min hi (max lo x)

/-- Python `s.startswith(p)`, via character lists (extensionally equal to
`String.startsWith`, but kernel-reducible). -/
def strStarts (s p : String) : Bool := p.data.isPrefixOf s.data

/-- The static MuJoCo model arrays read by `FixedEye.__init__`. -/
structure Model (K : Type*) where
  njnt : ℕ
  na : ℕ
  eq_active : List Bool
  eq_obj1id : List ℕ
  eq_obj2id : List ℕ
  eq_type : List ℕ
  eq_data : List (List K)
  joint_id2name : ℕ → String

/-- The mask read `self.model.eq_obj1id[self.model.eq_active.astype(bool)]`: the first-object
ids of the active equality constraints (boolean mask). -/
def activeObj1 (m : Model K) : List ℕ :=
  (m.eq_obj1id.zip m.eq_active).filterMap (fun p => if p.2 then some p.1 else none)

/-- The assignment `self.dependent_joints = np.unique(...)` of `FixedEye.__init__` (line 39):
the deduplicated set of first-object ids of active equality constraints. -/
def dependentJoints (m : Model K) : Finset ℕ := (activeObj1 m).toFinset

/-- The assignment `self.independent_joints = list(set(np.arange(njnt)) - set(dependent))`
(line 40), as a set. -/
def independentJoints (m : Model K) : Finset ℕ := Finset.range m.njnt \ dependentJoints m

/-- The same complement materialised as a list (`__init__` stores a list). -/
def independentList (m : Model K) : List ℕ :=
  (List.range m.njnt).filter (fun i => decide (i ∉ dependentJoints m))

/-- The comprehension filter of `__init__` lines 44-49: constraint `idx` is a
joint-coupling constraint (`eq_type == 2`) whose first object id is positive,
whose second object id is nonzero (Python truthiness), and whose two joints
are named `shoulder1_r2` and `elv_angle` (as an unordered pair). -/
def shoulderEqMatch (m : Model K) (idx : ℕ) : Prop :=
  m.eq_type.getD idx 0 = 2 ∧ 0 < m.eq_obj1id.getD idx 0 ∧ m.eq_obj2id.getD idx 0 ≠ 0 ∧
  ({m.joint_id2name (m.eq_obj1id.getD idx 0), m.joint_id2name (m.eq_obj2id.getD idx 0)} :
      Finset String) = ({"shoulder1_r2", "elv_angle"} : Finset String)

instance (m : Model K) (idx : ℕ) : Decidable (shoulderEqMatch m idx) := by
  unfold shoulderEqMatch; infer_instance

/-- The comprehension `eq_ID_shoulder1_r2 = [idx for idx, i in enumerate(eq_data) if ...]`:
all indices of matching constraints (comprehension over `eq_data`). -/
def findShoulderEq (m : Model K) : List ℕ :=
  (List.range m.eq_data.length).filter (fun idx => decide (shoulderEqMatch m idx))

/-- The joint bookkeeping computed by `FixedEye.__init__` (lines 38-51). -/
structure InitJoints where
  dependent : Finset ℕ
  independent : List ℕ
  eqShoulder : Option ℕ

/-- Lines 38-51 of `FixedEye.__init__`: compute the joint partition and, for a
`patch*` shoulder variant, resolve the shoulder coupling constraint; the
Python `assert len(...) == 1` becomes returning `none` (construction
failure) when the match is not unique. -/
def initJoints (m : Model K) (shoulder_variant : String) : Option InitJoints :=
  if strStarts shoulder_variant "patch" then
    match findShoulderEq m with
    | [i] => some ⟨dependentJoints m, independentList m, some i⟩
    | _ => none
  else some ⟨dependentJoints m, independentList m, none⟩

/-- The mutable simulation-side state (`self.sim.data` arrays plus the model
arrays that `set_ctrl` mutates, plus the abstract renderer/fingertip
outputs of the backend). -/
structure Sim (K : Type*) where
  qpos : List K
  qvel : List K
  qacc : List K
  act : List K
  ctrl : List K
  eq_data : List (List K)
  jnt_range : List (K × K)
  fingertip : K × K × K
  renderRGB : ℕ → ℕ → ℕ → K
  renderDepth : ℕ → ℕ → K

/-- The constructed `FixedEye` object: static attributes set in `__init__`
plus the simulation state and the (polymorphic, stateful) effort term. -/
structure FixedEye (K : Type*) (E : Type*) where
  shoulder_variant : String
  dependent_joints : Finset ℕ
  independent_joints : List ℕ
  eq_ID_shoulder1_r2 : ℕ
  render_observations : Bool
  na : ℕ
  ocular_image_height : ℕ
  ocular_image_width : ℕ
  joint_name2id : String → ℕ
  piv : K
  effortReset : E → E
  sim : Sim K
  effort : E

/-- Write `v` at row `i`, column `j` of a list-of-lists matrix. -/
def setMat (m : List (List K)) (i j : ℕ) (v : K) : List (List K) :=
  m.set i ((m.getD i []).set j v)

/-- Read entry `(i, j)` of the equality-constraint data matrix. -/
def eqDataAt (s : Sim K) (i j : ℕ) : K := (s.eq_data.getD i []).getD j 0

/-- The shoulder-coupling coefficient written by `set_ctrl` (line 87):
`-((np.pi - 2*elv)/np.pi)` with `np.pi` abstracted as `piv`. -/
def shoulderCoef (piv e : K) : K := -((piv - 2 * e) / piv)

/-- Method `FixedEye.set_ctrl` (lines 82-91): write
`ctrl = clip(act + action, 0, 1)`; under a `patch*` variant also update the
cached coupling constraint's coefficient, and under `patch-v2` additionally
shift the `shoulder_rot` joint range. -/
def set_ctrl (fe : FixedEye K E) (action : List K) : FixedEye K E :=
  let s1 : Sim K :=
    { fe.sim with ctrl := List.zipWith (fun a x => npclip (a + x) 0 1) fe.sim.act action }
  if strStarts fe.shoulder_variant "patch" then
    let elv := s1.qpos.getD (fe.joint_name2id "shoulder_elv") 0
    let s2 : Sim K :=
      { s1 with eq_data := setMat s1.eq_data fe.eq_ID_shoulder1_r2 1 (shoulderCoef fe.piv elv) }
    if fe.shoulder_variant = "patch-v2" then
      let elvAngle := s2.qpos.getD (fe.joint_name2id "elv_angle") 0
      let shift := 2 * min elv (fe.piv - elv) / fe.piv * elvAngle
      let newRange : K × K := (-(fe.piv / 2) - shift, fe.piv / 9 - shift)
      let s3 : Sim K :=
        { s2 with jnt_range := s2.jnt_range.set (fe.joint_name2id "shoulder_rot") newRange }
      { fe with sim := s3 }
    else { fe with sim := s2 }
  else { fe with sim := s1 }

/-- The rendered, flipped and normalised RGB-D observation (lines 118-125),
with the raw backend render abstracted as pixel functions. -/
structure Visual (K : Type*) where
  rgb : ℕ → ℕ → ℕ → K
  depth : ℕ → ℕ → K

/-- The dictionary returned by `get_observation`. -/
structure Obs (K : Type*) where
  proprioception : List K
  visual : Option (Visual K)

/-- The visual branch of `get_observation`: flip vertically, map RGB from
`[0,255]` and depth from `[0,1]` to `[-1,1]`. -/
def renderVisual (fe : FixedEye K E) : Visual K :=
  { rgb := fun i j c =>
      (fe.sim.renderRGB (fe.ocular_image_height - 1 - i) j c / 255 - 1 / 2) * 2
    depth := fun i j =>
      (fe.sim.renderDepth (fe.ocular_image_height - 1 - i) j - 1 / 2) * 2 }

/-- Method `FixedEye.get_observation` (lines 97-129). -/
def get_observation (fe : FixedEye K E) : Obs K :=
  let jnt_range := fe.independent_joints.map (fun i => fe.sim.jnt_range.getD i (0, 0))
  let qpos0 := fe.independent_joints.map (fun i => fe.sim.qpos.getD i 0)
  let qpos1 := List.zipWith (fun q (r : K × K) => q - r.1 / (r.2 - r.1)) qpos0 jnt_range
  let qpos := qpos1.map (fun x => (x - 1 / 2) * 2)
  let qvel := fe.independent_joints.map (fun i => fe.sim.qvel.getD i 0)
  let qacc := fe.independent_joints.map (fun i => fe.sim.qacc.getD i 0)
  let ftip := [fe.sim.fingertip.1, fe.sim.fingertip.2.1, fe.sim.fingertip.2.2]
  let act := fe.sim.act.map (fun a => (a - 1 / 2) * 2)
  { proprioception := qpos ++ qvel ++ qacc ++ ftip ++ act
    visual := if fe.render_observations then some (renderVisual fe) else none }

/-- Fancy-index assignment `l[idxs] = values`: write `d i` at each index
`i ∈ idxs`. -/
def assignAt (l : List K) (idxs : List ℕ) (d : ℕ → K) : List K :=
  idxs.foldl (fun acc i => acc.set i (d i)) l

/-- The in-place state updates of `FixedEye.reset` (lines 136-152): zero-fill
`qpos`/`qvel`, overwrite the independent joints with the sampled draws,
overwrite `act` with its draw, and reset the effort term. -/
def resetData (fe : FixedEye K E) (qposDraw qvelDraw : ℕ → K) (actDraw : List K) :
    FixedEye K E :=
  { fe with
    sim := { fe.sim with
      qpos := assignAt (List.replicate fe.sim.qpos.length 0) fe.independent_joints qposDraw
      qvel := assignAt (List.replicate fe.sim.qvel.length 0) fe.independent_joints qvelDraw
      act := actDraw }
    effort := fe.effortReset fe.effort }

/-- Method `FixedEye.reset` (lines 131-157): `sim.reset()`, randomise the state,
reset the effort term, a single `sim.forward()` pass, then a fresh
observation.  The backend calls `sim.reset`/`sim.forward` are abstract
transformers of the simulation arrays; the uniform draws are parameters. -/
def reset (fe : FixedEye K E) (simReset forward : Sim K → Sim K)
    (qposDraw qvelDraw : ℕ → K) (actDraw : List K) : FixedEye K E × Obs K :=
  let fe0 : FixedEye K E := { fe with sim := simReset fe.sim }
  let fe1 := resetData fe0 qposDraw qvelDraw actDraw
  let fe2 : FixedEye K E := { fe1 with sim := forward fe1.sim }
  (fe2, get_observation fe2)

/-- The activation normalisation of `get_observation` line 113. -/
def normalize_act (a : K) : K := (a - 1 / 2) * 2

/-- The inverse map named by the specification: `b ↦ b/2 + 0.5`. -/
def denormalize_act (b : K) : K := b / 2 + 1 / 2

theorem range_1001_ne : (Finset.range 1001).Nonempty := ⟨0, Finset.mem_range.mpr (by omega)⟩

/-- The raw multi-component sine sum of `generate_sine_wave`
(`evaluate-tracking.py` lines 56-60), at sample index `n`; each component is
`(amplitude, frequency, phase)` and `np.sin` is abstracted as `sinf`. -/
def rawSine (sinf : K → K) (piv : K) (comps : List (K × K × K)) (dt : K) (n : ℕ) : K :=
  (comps.map (fun c => c.1 * sinf (c.2.1 * (2 * piv) * ((n : K) * dt) + c.2.2))).sum

/-- The value `np.min(sine)` over the 1001 samples. -/
def rawMin (sinf : K → K) (piv : K) (comps : List (K × K × K)) (dt : K) : K :=
  (Finset.range 1001).inf' range_1001_ne (rawSine sinf piv comps dt)

/-- The value `np.max(sine)` over the 1001 samples. -/
def rawMax (sinf : K → K) (piv : K) (comps : List (K × K × K)) (dt : K) : K :=
  (Finset.range 1001).sup' range_1001_ne (rawSine sinf piv comps dt)

/-- The value `np.max(sine - np.min(sine))`: the maximum after the shift (line 64). -/
def shiftedMax (sinf : K → K) (piv : K) (comps : List (K × K × K)) (dt : K) : K :=
  (Finset.range 1001).sup' range_1001_ne
    (fun n => rawSine sinf piv comps dt n - rawMin sinf piv comps dt)

/-- Sample `n` of the rescaled wave (lines 63-65): shift by the minimum,
divide by the post-shift maximum, then map affinely into `limits`. -/
def scaledSine (sinf : K → K) (piv : K) (comps : List (K × K × K)) (dt : K)
    (limits : K × K) (n : ℕ) : K :=
  limits.1 + (limits.2 - limits.1) *
    ((rawSine sinf piv comps dt n - rawMin sinf piv comps dt) / shiftedMax sinf piv comps dt)

/-- Function `generate_sine_wave` (lines 51-67): the list of 1001 rescaled samples. -/
def generate_sine_wave (sinf : K → K) (piv : K) (comps : List (K × K × K)) (dt : K)
    (limits : K × K) : List K :=
  (List.range 1001).map (scaledSine sinf piv comps dt limits)

/-! ## Helper lemmas -/

theorem npclip_unit (x : K) : 0 ≤ npclip x 0 1 ∧ npclip x 0 1 ≤ 1 :=
  ⟨le_min zero_le_one (le_max_left 0 x), min_le_left 1 _⟩

theorem getD_lt {α : Type*} (l : List α) (k : ℕ) (d : α) (h : k < l.length) :
    l.getD k d = l.get ⟨k, h⟩ := by
  simp [List.getD_eq_getElem?_getD, List.getElem?_eq_getElem h]

theorem getD_append_lt {α : Type*} (l₁ l₂ : List α) (k : ℕ) (d : α) (h : k < l₁.length) :
    (l₁ ++ l₂).getD k d = l₁.getD k d := by
  rw [List.getD_eq_getElem?_getD, List.getD_eq_getElem?_getD, List.getElem?_append_left h]

theorem getD_append_ge {α : Type*} (l₁ l₂ : List α) (k : ℕ) (d : α) (h : l₁.length ≤ k) :
    (l₁ ++ l₂).getD k d = l₂.getD (k - l₁.length) d := by
  rw [List.getD_eq_getElem?_getD, List.getD_eq_getElem?_getD, List.getElem?_append_right h]

/-! ## C9: activation normalisation is a bijection -/

/-- C9: the activation normalisation `a ↦ (a - 0.5) * 2` is a bijection from
`[0, 1]` onto `[-1, 1]`, and composing it with the denormalisation
`b ↦ b/2 + 0.5` is the identity on `[0, 1]`, exactly over `ℚ`. -/
theorem act_normalization_bijection :
    Set.BijOn (normalize_act : ℚ → ℚ) (Set.Icc 0 1) (Set.Icc (-1) 1) ∧
    ∀ a : ℚ, a ∈ Set.Icc (0 : ℚ) 1 → normalize_act (denormalize_act a) = a := by
  constructor
  · refine ⟨?_, ?_, ?_⟩
    · intro a ha
      simp only [normalize_act, Set.mem_Icc] at *
      exact ⟨by linarith [ha.1], by linarith [ha.2]⟩
    · intro a _ b _ h
      simp only [normalize_act] at h
      linarith [h]
    · intro b hb
      simp only [Set.mem_Icc] at hb
      refine ⟨denormalize_act b, ?_, ?_⟩
      · simp only [denormalize_act, Set.mem_Icc]
        exact ⟨by linarith [hb.1], by linarith [hb.2]⟩
      · simp only [normalize_act, denormalize_act]; ring
  · intro a _
    simp only [normalize_act, denormalize_act]; ring

/-- Witness for C9 at `a = 1/2`. -/
theorem act_normalization_bijection_witness :
    (1 / 2 : ℚ) ∈ Set.Icc (0 : ℚ) 1 ∧
    normalize_act (denormalize_act (1 / 2 : ℚ)) = 1 / 2 :=
  ⟨Set.mem_Icc.mpr (by norm_num),
   act_normalization_bijection.2 (1 / 2) (Set.mem_Icc.mpr (by norm_num))⟩

/-! ## C2: `set_ctrl` clips the control to the unit interval -/

/-- C2: for any action and any current activation with components in `[0,1]`,
`set_ctrl` writes `ctrl = clip(act + action, 0, 1)` componentwise (the action
is a delta on the activation, not an absolute command), so every written
control component lies in `[0, 1]` whatever the action's magnitude. -/
theorem set_ctrl_clips (fe : FixedEye K E) (action : List K)
    (hact : ∀ a ∈ fe.sim.act, 0 ≤ a ∧ a ≤ 1) :
    (set_ctrl fe action).sim.ctrl
        = List.zipWith (fun a x => npclip (a + x) 0 1) fe.sim.act action ∧
    (∀ k, k < fe.sim.act.length → k < action.length →
      (set_ctrl fe action).sim.ctrl.getD k 0
        = npclip (fe.sim.act.getD k 0 + action.getD k 0) 0 1) ∧
    ∀ c ∈ (set_ctrl fe action).sim.ctrl, 0 ≤ c ∧ c ≤ 1 := by
  have hctrl : (set_ctrl fe action).sim.ctrl
      = List.zipWith (fun a x => npclip (a + x) 0 1) fe.sim.act action := by
    unfold set_ctrl
    split
    · split <;> rfl
    · rfl
  refine ⟨hctrl, ?_, ?_⟩
  · intro k hk1 hk2
    have hk : k < (List.zipWith (fun a x => npclip (a + x) 0 1) fe.sim.act action).length := by
      rw [List.length_zipWith]; omega
    rw [hctrl, getD_lt _ _ _ hk, List.get_eq_getElem, List.getElem_zipWith,
      getD_lt _ _ _ hk1, getD_lt _ _ _ hk2]
    rfl
  · intro c hc
    rw [hctrl] at hc
    obtain ⟨k, hk, hck⟩ := List.mem_iff_getElem.mp hc
    rw [List.getElem_zipWith] at hck
    rw [← hck]
    exact npclip_unit _

/-- A concrete two-muscle environment used to witness C2: activations `1`
and `0`, and an action overshooting in both directions. -/
def feClip : FixedEye ℚ ℕ where
  shoulder_variant := "original"
  dependent_joints := ∅
  independent_joints := []
  eq_ID_shoulder1_r2 := 0
  render_observations := false
  na := 2
  ocular_image_height := 0
  ocular_image_width := 0
  joint_name2id := fun _ => 0
  piv := 0
  effortReset := id
  sim := { qpos := [], qvel := [], qacc := [], act := [1, 0], ctrl := [0, 0]
           eq_data := [], jnt_range := [], fingertip := (0, 0, 0)
           renderRGB := fun _ _ _ => 0, renderDepth := fun _ _ => 0 }
  effort := 0

/-- Witness for C2 on `feClip` with the action `[7, -7]`. -/
theorem set_ctrl_clips_witness :
    (∀ a ∈ feClip.sim.act, 0 ≤ a ∧ a ≤ 1) ∧
    ((set_ctrl feClip [7, -7]).sim.ctrl
        = List.zipWith (fun a x => npclip (a + x) 0 1) feClip.sim.act [7, -7] ∧
      (∀ k, k < feClip.sim.act.length → k < ([(7 : ℚ), -7] : List ℚ).length →
        (set_ctrl feClip [7, -7]).sim.ctrl.getD k 0
          = npclip (feClip.sim.act.getD k 0 + ([(7 : ℚ), -7] : List ℚ).getD k 0) 0 1) ∧
      ∀ c ∈ (set_ctrl feClip [7, -7]).sim.ctrl, 0 ≤ c ∧ c ≤ 1) :=
  ⟨by decide, set_ctrl_clips feClip [7, -7] (by decide)⟩

/-! ## C3: the dependent/independent joint partition -/

/-- C3: the dependent joint set is the deduplicated set of first-object ids
of active equality constraints; the independent set is its complement in
`{0, …, njnt-1}`; for every model whose constraint ids are valid joint ids
the two sets cover the joint set and are disjoint, and neither `set_ctrl`
nor `reset` ever rewrites the stored partition. -/
theorem joint_partition (m : Model K)
    (hvalid : ∀ j ∈ activeObj1 m, j < m.njnt) :
    dependentJoints m = (activeObj1 m).toFinset ∧
    dependentJoints m ∪ independentJoints m = Finset.range m.njnt ∧
    dependentJoints m ∩ independentJoints m = ∅ ∧
    (independentList m).toFinset = independentJoints m ∧
    (∀ (fe : FixedEye K E) (action : List K),
       (set_ctrl fe action).dependent_joints = fe.dependent_joints ∧
       (set_ctrl fe action).independent_joints = fe.independent_joints) ∧
    (∀ (fe : FixedEye K E) (sr fw : Sim K → Sim K) (qd qv : ℕ → K) (ad : List K),
       (reset fe sr fw qd qv ad).1.dependent_joints = fe.dependent_joints ∧
       (reset fe sr fw qd qv ad).1.independent_joints = fe.independent_joints) := by
  refine ⟨rfl, ?_, ?_, ?_, ?_, ?_⟩
  · have hsub : dependentJoints m ⊆ Finset.range m.njnt := by
      intro j hj
      exact Finset.mem_range.mpr (hvalid j (List.mem_toFinset.mp hj))
    rw [Finset.union_comm]
    exact Finset.sdiff_union_of_subset hsub
  · exact Finset.inter_sdiff_self _ _
  · ext j
    simp [independentList, independentJoints, List.mem_filter, List.mem_range,
      Finset.mem_sdiff, Finset.mem_range]
  · intro fe action
    unfold set_ctrl
    split
    · split <;> exact ⟨rfl, rfl⟩
    · exact ⟨rfl, rfl⟩
  · intro fe sr fw qd qv ad
    exact ⟨rfl, rfl⟩

/-- A model with two active constraints on the same joint plus an inactive
one, used to witness C3. -/
def mPartition : Model ℚ where
  njnt := 3
  na := 0
  eq_active := [true, true, false]
  eq_obj1id := [1, 1, 2]
  eq_obj2id := [0, 0, 0]
  eq_type := [0, 0, 0]
  eq_data := [[], [], []]
  joint_id2name := fun _ => "j"

/-- Witness for C3 on `mPartition` (duplicate constraints on joint 1). -/
theorem joint_partition_witness :
    (∀ j ∈ activeObj1 mPartition, j < mPartition.njnt) ∧
    (dependentJoints mPartition = (activeObj1 mPartition).toFinset ∧
     dependentJoints mPartition ∪ independentJoints mPartition
        = Finset.range mPartition.njnt ∧
     dependentJoints mPartition ∩ independentJoints mPartition = ∅ ∧
     (independentList mPartition).toFinset = independentJoints mPartition ∧
     (∀ (fe : FixedEye ℚ ℕ) (action : List ℚ),
        (set_ctrl fe action).dependent_joints = fe.dependent_joints ∧
        (set_ctrl fe action).independent_joints = fe.independent_joints) ∧
     (∀ (fe : FixedEye ℚ ℕ) (sr fw : Sim ℚ → Sim ℚ) (qd qv : ℕ → ℚ) (ad : List ℚ),
        (reset fe sr fw qd qv ad).1.dependent_joints = fe.dependent_joints ∧
        (reset fe sr fw qd qv ad).1.independent_joints = fe.independent_joints)) :=
  ⟨by decide, joint_partition mPartition (by decide)⟩

/-! ## C5: resolution of the shoulder coupling constraint -/

/-- C5: under a `patch*` shoulder variant, construction succeeds exactly when
the model has a unique joint-coupling equality constraint linking
`shoulder1_r2` and `elv_angle`; on success the cached index is that unique
constraint's, and a non-unique match aborts construction (the Python
assertion) with no fallback. -/
theorem patch_constraint_resolution (m : Model K) (shoulder_variant : String)
    (hp : strStarts shoulder_variant "patch" = true) :
    (∀ i, (∃ r, initJoints m shoulder_variant = some r ∧ r.eqShoulder = some i)
        ↔ findShoulderEq m = [i]) ∧
    (initJoints m shoulder_variant = none ↔ (findShoulderEq m).length ≠ 1) ∧
    (∀ i, i ∈ findShoulderEq m ↔ i < m.eq_data.length ∧ shoulderEqMatch m i) := by
  have hinit : initJoints m shoulder_variant
      = (match findShoulderEq m with
         | [i] => some ⟨dependentJoints m, independentList m, some i⟩
         | _ => none) := by
    unfold initJoints
    rw [hp]
    rfl
  refine ⟨?_, ?_, ?_⟩
  · intro i
    rcases hf : findShoulderEq m with _ | ⟨a, _ | ⟨b, t⟩⟩ <;>
      rw [hf] at hinit <;> simp [hinit]
  · rcases hf : findShoulderEq m with _ | ⟨a, _ | ⟨b, t⟩⟩ <;>
      rw [hf] at hinit <;> simp [hinit]
  · intro i
    simp [findShoulderEq, List.mem_filter, List.mem_range]

/-- A model with exactly one matching shoulder constraint, witnessing C5. -/
def mShoulder : Model ℚ where
  njnt := 3
  na := 0
  eq_active := [true]
  eq_obj1id := [1]
  eq_obj2id := [2]
  eq_type := [2]
  eq_data := [[0, 0]]
  joint_id2name := fun i => if i = 1 then "shoulder1_r2" else
    if i = 2 then "elv_angle" else "x"

/-- Witness for C5 on `mShoulder` with variant `"patch"`. -/
theorem patch_constraint_resolution_witness :
    strStarts "patch" "patch" = true ∧
    ((∀ i, (∃ r, initJoints mShoulder "patch" = some r ∧ r.eqShoulder = some i)
        ↔ findShoulderEq mShoulder = [i]) ∧
     (initJoints mShoulder "patch" = none ↔ (findShoulderEq mShoulder).length ≠ 1) ∧
     (∀ i, i ∈ findShoulderEq mShoulder
        ↔ i < mShoulder.eq_data.length ∧ shoulderEqMatch mShoulder i)) :=
  ⟨by decide, patch_constraint_resolution mShoulder "patch" (by decide)⟩

/-! ## C8: observation shape -/

/-- C8: the observation's visual field is null exactly when rendering of
observations is disabled, and the proprioception vector always has length
`3·|independent joints| + 3 + n_actuators`. -/
theorem observation_shape (fe : FixedEye K E) (hact : fe.sim.act.length = fe.na) :
    ((get_observation fe).visual = none ↔ fe.render_observations = false) ∧
    (get_observation fe).proprioception.length
      = 3 * fe.independent_joints.length + 3 + fe.na := by
  constructor
  · cases h : fe.render_observations <;> simp [get_observation, h]
  · simp only [get_observation, List.length_append, List.length_map, List.length_zipWith,
      List.length_cons, List.length_nil, Nat.min_self]
    omega

/-- A one-joint, one-muscle environment with rendering disabled, used to
witness C8 and C1. -/
def feObs : FixedEye ℚ ℕ where
  shoulder_variant := "original"
  dependent_joints := ∅
  independent_joints := [0]
  eq_ID_shoulder1_r2 := 0
  render_observations := false
  na := 1
  ocular_image_height := 0
  ocular_image_width := 0
  joint_name2id := fun _ => 0
  piv := 0
  effortReset := id
  sim := { qpos := [5], qvel := [7], qacc := [11], act := [1], ctrl := [0]
           eq_data := [], jnt_range := [(1, 3)], fingertip := (0, 0, 0)
           renderRGB := fun _ _ _ => 0, renderDepth := fun _ _ => 0 }
  effort := 0

/-- Witness for C8 on `feObs`. -/
theorem observation_shape_witness :
    feObs.sim.act.length = feObs.na ∧
    (((get_observation feObs).visual = none ↔ feObs.render_observations = false) ∧
     (get_observation feObs).proprioception.length
       = 3 * feObs.independent_joints.length + 3 + feObs.na) :=
  ⟨by decide, observation_shape feObs (by decide)⟩

/-! ## C1: the qpos normalisation precedence artifact -/

theorem getD_concat5_first {α : Type*} (A B C D Ex : List α) (k : ℕ) (d : α)
    (h : k < A.length) :
    (A ++ B ++ C ++ D ++ Ex).getD k d = A.getD k d := by
  rw [getD_append_lt _ _ _ _ (by simp only [List.length_append]; omega),
    getD_append_lt _ _ _ _ (by simp only [List.length_append]; omega),
    getD_append_lt _ _ _ _ (by simp only [List.length_append]; omega),
    getD_append_lt _ _ _ _ h]

theorem getD_concat5_second {α : Type*} (A B C D Ex : List α) (k : ℕ) (d : α)
    (h : k < B.length) :
    (A ++ B ++ C ++ D ++ Ex).getD (A.length + k) d = B.getD k d := by
  rw [getD_append_lt _ _ _ _ (by simp only [List.length_append]; omega),
    getD_append_lt _ _ _ _ (by simp only [List.length_append]; omega),
    getD_append_lt _ _ _ _ (by simp only [List.length_append]; omega),
    getD_append_ge _ _ _ _ (by omega)]
  congr 1
  omega

theorem getD_concat5_third {α : Type*} (A B C D Ex : List α) (k : ℕ) (d : α)
    (h : k < C.length) :
    (A ++ B ++ C ++ D ++ Ex).getD (A.length + B.length + k) d = C.getD k d := by
  rw [getD_append_lt _ _ _ _ (by simp only [List.length_append]; omega),
    getD_append_lt _ _ _ _ (by simp only [List.length_append]; omega),
    getD_append_ge _ _ _ _ (by simp only [List.length_append]; omega)]
  congr 1
  simp only [List.length_append]
  omega

/-- C1: for each independent joint (position `k` of the stored list, joint id
`j`), the `qpos` entry of the proprioception vector is
`((qpos_j - low_j/(high_j - low_j)) - 0.5) * 2` — the precedence artifact in
which only `low_j` is divided by the range — and not, in general, the
conventional rescaling `((qpos_j - low_j)/(high_j - low_j) - 0.5) * 2`
(the two formulas disagree at a concrete input, exhibited in the last
conjunct); the `qvel` and `qacc` entries pass through unnormalised. -/
theorem qpos_normalization_artifact (fe : FixedEye K E) (k : ℕ)
    (hk : k < fe.independent_joints.length) :
    (get_observation fe).proprioception.getD k 0
      = ((fe.sim.qpos.getD (fe.independent_joints.getD k 0) 0
          - (fe.sim.jnt_range.getD (fe.independent_joints.getD k 0) (0, 0)).1
            / ((fe.sim.jnt_range.getD (fe.independent_joints.getD k 0) (0, 0)).2
               - (fe.sim.jnt_range.getD (fe.independent_joints.getD k 0) (0, 0)).1))
         - 1 / 2) * 2 ∧
    (get_observation fe).proprioception.getD (fe.independent_joints.length + k) 0
      = fe.sim.qvel.getD (fe.independent_joints.getD k 0) 0 ∧
    (get_observation fe).proprioception.getD
        (fe.independent_joints.length + fe.independent_joints.length + k) 0
      = fe.sim.qacc.getD (fe.independent_joints.getD k 0) 0 ∧
    ∃ q lo hi : K, ((q - lo / (hi - lo)) - 1 / 2) * 2
      ≠ (((q - lo) / (hi - lo)) - 1 / 2) * 2 := by
  have hind : fe.independent_joints.getD k 0
      = fe.independent_joints.get ⟨k, hk⟩ := getD_lt _ _ _ hk
  refine ⟨?_, ?_, ?_, ⟨1, 0, 2, by norm_num⟩⟩
  · simp only [get_observation]
    have hlen : ((List.zipWith
        (fun q (r : K × K) => q - r.1 / (r.2 - r.1))
        (fe.independent_joints.map (fun i => fe.sim.qpos.getD i 0))
        (fe.independent_joints.map (fun i => fe.sim.jnt_range.getD i (0, 0)))).map
          (fun x => (x - 1 / 2) * 2)).length = fe.independent_joints.length := by
      simp
    have hk' : k < ((List.zipWith
        (fun q (r : K × K) => q - r.1 / (r.2 - r.1))
        (fe.independent_joints.map (fun i => fe.sim.qpos.getD i 0))
        (fe.independent_joints.map (fun i => fe.sim.jnt_range.getD i (0, 0)))).map
          (fun x => (x - 1 / 2) * 2)).length := by omega
    rw [getD_concat5_first _ _ _ _ _ _ _ (by omega),
      getD_lt _ _ _ hk', List.get_eq_getElem]
    simp only [List.getElem_map, List.getElem_zipWith]
    rw [hind, List.get_eq_getElem]
  · simp only [get_observation]
    have hk' : k < (fe.independent_joints.map (fun i => fe.sim.qvel.getD i 0)).length := by
      simp; omega
    rw [show fe.independent_joints.length = ((List.zipWith
        (fun q (r : K × K) => q - r.1 / (r.2 - r.1))
        (fe.independent_joints.map (fun i => fe.sim.qpos.getD i 0))
        (fe.independent_joints.map (fun i => fe.sim.jnt_range.getD i (0, 0)))).map
          (fun x => (x - 1 / 2) * 2)).length by simp,
      getD_concat5_second _ _ _ _ _ _ _ hk', getD_lt _ _ _ hk', List.get_eq_getElem]
    simp only [List.getElem_map]
    rw [hind, List.get_eq_getElem]
  · simp only [get_observation]
    have hk' : k < (fe.independent_joints.map (fun i => fe.sim.qacc.getD i 0)).length := by
      simp; omega
    rw [show fe.independent_joints.length + fe.independent_joints.length = ((List.zipWith
        (fun q (r : K × K) => q - r.1 / (r.2 - r.1))
        (fe.independent_joints.map (fun i => fe.sim.qpos.getD i 0))
        (fe.independent_joints.map (fun i => fe.sim.jnt_range.getD i (0, 0)))).map
          (fun x => (x - 1 / 2) * 2)).length
        + (fe.independent_joints.map (fun i => fe.sim.qvel.getD i 0)).length by simp,
      getD_concat5_third _ _ _ _ _ _ _ hk', getD_lt _ _ _ hk', List.get_eq_getElem]
    simp only [List.getElem_map]
    rw [hind, List.get_eq_getElem]

/-- Witness for C1 on `feObs` at `k = 0`: joint range `[1, 3]` and
`qpos = 5`, so the component is `((5 - 1/(3-1)) - 1/2) * 2 = 8`. -/
theorem qpos_normalization_artifact_witness :
    0 < feObs.independent_joints.length ∧
    ((get_observation feObs).proprioception.getD 0 0
      = ((feObs.sim.qpos.getD (feObs.independent_joints.getD 0 0) 0
          - (feObs.sim.jnt_range.getD (feObs.independent_joints.getD 0 0) (0, 0)).1
            / ((feObs.sim.jnt_range.getD (feObs.independent_joints.getD 0 0) (0, 0)).2
               - (feObs.sim.jnt_range.getD (feObs.independent_joints.getD 0 0) (0, 0)).1))
         - 1 / 2) * 2 ∧
     (get_observation feObs).proprioception.getD (feObs.independent_joints.length + 0) 0
      = feObs.sim.qvel.getD (feObs.independent_joints.getD 0 0) 0 ∧
     (get_observation feObs).proprioception.getD
        (feObs.independent_joints.length + feObs.independent_joints.length + 0) 0
      = feObs.sim.qacc.getD (feObs.independent_joints.getD 0 0) 0 ∧
     ∃ q lo hi : ℚ, ((q - lo / (hi - lo)) - 1 / 2) * 2
      ≠ (((q - lo) / (hi - lo)) - 1 / 2) * 2) :=
  ⟨by decide, qpos_normalization_artifact feObs 0 (by decide)⟩

/-! ## C10: frame conditions of `set_ctrl` -/

theorem getD_set_ne {α : Type*} (l : List α) (i0 i : ℕ) (a d : α) (h : i0 ≠ i) :
    (l.set i0 a).getD i d = l.getD i d := by
  rw [List.getD_eq_getElem?_getD, List.getElem?_set_ne h, ← List.getD_eq_getElem?_getD]

theorem getD_set_self {α : Type*} (l : List α) (i : ℕ) (a d : α) (h : i < l.length) :
    (l.set i a).getD i d = a := by
  rw [List.getD_eq_getElem?_getD, List.getElem?_set_self h]
  rfl

theorem setMat_frame (mat : List (List K)) (i0 j0 : ℕ) (v : K) (i j : ℕ)
    (h : ¬(i = i0 ∧ j = j0)) :
    ((setMat mat i0 j0 v).getD i []).getD j 0 = (mat.getD i []).getD j 0 := by
  unfold setMat
  by_cases hi : i = i0
  · subst hi
    have hj : j ≠ j0 := fun hj => h ⟨rfl, hj⟩
    by_cases hlen : i < mat.length
    · have h1 : (mat.set i ((mat.getD i []).set j0 v)).getD i []
          = (mat.getD i []).set j0 v := getD_set_self _ _ _ _ hlen
      rw [h1, getD_set_ne _ _ _ _ _ (Ne.symm hj)]
    · rw [List.set_eq_of_length_le (by omega)]
  · rw [getD_set_ne _ _ _ _ _ (fun he => hi he.symm)]

theorem setMat_get (mat : List (List K)) (i0 j0 : ℕ) (v : K)
    (hi : i0 < mat.length) (hj : j0 < (mat.getD i0 []).length) :
    ((setMat mat i0 j0 v).getD i0 []).getD j0 0 = v := by
  unfold setMat
  rw [getD_set_self _ _ _ _ hi, getD_set_self _ _ _ _ hj]

/-- C10: with the `"original"` shoulder variant `set_ctrl` writes only the
control vector — joint positions, velocities, accelerations, activations,
equality-constraint data and joint ranges are untouched (activations are
never written by the action mapper); with a `patch*` variant the only extra
writes are the cached constraint's coefficient entry and, for `patch-v2`
only, the `shoulder_rot` joint range row. -/
theorem set_ctrl_frame (fe : FixedEye K E) (action : List K) :
    ((set_ctrl fe action).sim.qpos = fe.sim.qpos ∧
     (set_ctrl fe action).sim.qvel = fe.sim.qvel ∧
     (set_ctrl fe action).sim.qacc = fe.sim.qacc ∧
     (set_ctrl fe action).sim.act = fe.sim.act ∧
     (set_ctrl fe action).sim.ctrl
       = List.zipWith (fun a x => npclip (a + x) 0 1) fe.sim.act action) ∧
    (fe.shoulder_variant = "original" →
      (set_ctrl fe action).sim.eq_data = fe.sim.eq_data ∧
      (set_ctrl fe action).sim.jnt_range = fe.sim.jnt_range) ∧
    (strStarts fe.shoulder_variant "patch" = true →
      (∀ i j, ¬(i = fe.eq_ID_shoulder1_r2 ∧ j = 1) →
        eqDataAt (set_ctrl fe action).sim i j = eqDataAt fe.sim i j) ∧
      (fe.shoulder_variant ≠ "patch-v2" →
        (set_ctrl fe action).sim.jnt_range = fe.sim.jnt_range) ∧
      (fe.shoulder_variant = "patch-v2" →
        ∀ i, i ≠ fe.joint_name2id "shoulder_rot" →
          (set_ctrl fe action).sim.jnt_range.getD i (0, 0)
            = fe.sim.jnt_range.getD i (0, 0))) := by
  by_cases hp : strStarts fe.shoulder_variant "patch" = true
  · by_cases hv2 : fe.shoulder_variant = "patch-v2"
    · have hfe : set_ctrl fe action = { fe with sim :=
        { fe.sim with
          ctrl := List.zipWith (fun a x => npclip (a + x) 0 1) fe.sim.act action
          eq_data := setMat fe.sim.eq_data fe.eq_ID_shoulder1_r2 1
            (shoulderCoef fe.piv (fe.sim.qpos.getD (fe.joint_name2id "shoulder_elv") 0))
          jnt_range := fe.sim.jnt_range.set (fe.joint_name2id "shoulder_rot")
            (-(fe.piv / 2) - 2 * min (fe.sim.qpos.getD (fe.joint_name2id "shoulder_elv") 0)
                (fe.piv - fe.sim.qpos.getD (fe.joint_name2id "shoulder_elv") 0) / fe.piv
              * fe.sim.qpos.getD (fe.joint_name2id "elv_angle") 0,
             fe.piv / 9 - 2 * min (fe.sim.qpos.getD (fe.joint_name2id "shoulder_elv") 0)
                (fe.piv - fe.sim.qpos.getD (fe.joint_name2id "shoulder_elv") 0) / fe.piv
              * fe.sim.qpos.getD (fe.joint_name2id "elv_angle") 0) } } := by
        unfold set_ctrl
        rw [if_pos hp, if_pos hv2]
      refine ⟨?_, ?_, ?_⟩
      · rw [hfe]
        exact ⟨rfl, rfl, rfl, rfl, rfl⟩
      · intro ho
        exact absurd (ho.symm.trans hv2) (by decide)
      · intro _
        refine ⟨?_, ?_, ?_⟩
        · intro i j hij
          rw [hfe]
          exact setMat_frame _ _ _ _ _ _ hij
        · intro hne
          cases hne hv2
        · intro _ i hi
          rw [hfe]
          exact getD_set_ne _ _ _ _ _ (fun he => hi he.symm)
    · have hfe : set_ctrl fe action = { fe with sim :=
        { fe.sim with
          ctrl := List.zipWith (fun a x => npclip (a + x) 0 1) fe.sim.act action
          eq_data := setMat fe.sim.eq_data fe.eq_ID_shoulder1_r2 1
            (shoulderCoef fe.piv
              (fe.sim.qpos.getD (fe.joint_name2id "shoulder_elv") 0)) } } := by
        unfold set_ctrl
        rw [if_pos hp, if_neg hv2]
      refine ⟨?_, ?_, ?_⟩
      · rw [hfe]
        exact ⟨rfl, rfl, rfl, rfl, rfl⟩
      · intro ho
        rw [ho] at hp
        exact absurd hp (by decide)
      · intro _
        refine ⟨?_, fun _ => by rw [hfe], fun hv => (hv2 hv).elim⟩
        intro i j hij
        rw [hfe]
        exact setMat_frame _ _ _ _ _ _ hij
  · have hfe : set_ctrl fe action = { fe with sim :=
      { fe.sim with
        ctrl := List.zipWith (fun a x => npclip (a + x) 0 1) fe.sim.act action } } := by
      unfold set_ctrl
      rw [if_neg hp]
    refine ⟨?_, ?_, ?_⟩
    · rw [hfe]
      exact ⟨rfl, rfl, rfl, rfl, rfl⟩
    · intro _
      rw [hfe]
      exact ⟨rfl, rfl⟩
    · intro hp'
      cases hp hp'

/-- A `patch-v2` environment over `ℚ` (with `piv := 1` standing for the
abstracted constant), used to witness C10. -/
def feV2 : FixedEye ℚ ℕ where
  shoulder_variant := "patch-v2"
  dependent_joints := ∅
  independent_joints := [0]
  eq_ID_shoulder1_r2 := 0
  render_observations := false
  na := 1
  ocular_image_height := 0
  ocular_image_width := 0
  joint_name2id := fun s => if s = "shoulder_rot" then 1 else 0
  piv := 1
  effortReset := id
  sim := { qpos := [0], qvel := [0], qacc := [0], act := [0], ctrl := [0]
           eq_data := [[0, 0]], jnt_range := [(0, 0), (0, 0)], fingertip := (0, 0, 0)
           renderRGB := fun _ _ _ => 0, renderDepth := fun _ _ => 0 }
  effort := 0

/-- Witness for C10 on the `patch-v2` environment `feV2`. -/
theorem set_ctrl_frame_witness :
    ((set_ctrl feV2 [1]).sim.qpos = feV2.sim.qpos ∧
     (set_ctrl feV2 [1]).sim.qvel = feV2.sim.qvel ∧
     (set_ctrl feV2 [1]).sim.qacc = feV2.sim.qacc ∧
     (set_ctrl feV2 [1]).sim.act = feV2.sim.act ∧
     (set_ctrl feV2 [1]).sim.ctrl
       = List.zipWith (fun a x => npclip (a + x) 0 1) feV2.sim.act [1]) ∧
    (feV2.shoulder_variant = "original" →
      (set_ctrl feV2 [1]).sim.eq_data = feV2.sim.eq_data ∧
      (set_ctrl feV2 [1]).sim.jnt_range = feV2.sim.jnt_range) ∧
    (strStarts feV2.shoulder_variant "patch" = true →
      (∀ i j, ¬(i = feV2.eq_ID_shoulder1_r2 ∧ j = 1) →
        eqDataAt (set_ctrl feV2 [1]).sim i j = eqDataAt feV2.sim i j) ∧
      (feV2.shoulder_variant ≠ "patch-v2" →
        (set_ctrl feV2 [1]).sim.jnt_range = feV2.sim.jnt_range) ∧
      (feV2.shoulder_variant = "patch-v2" →
        ∀ i, i ≠ feV2.joint_name2id "shoulder_rot" →
          (set_ctrl feV2 [1]).sim.jnt_range.getD i (0, 0)
            = feV2.sim.jnt_range.getD i (0, 0))) :=
  set_ctrl_frame feV2 [1]

/-! ## C6: reset zeroes, then samples only the independent joints -/

theorem assignAt_cons (l : List K) (a : ℕ) (t : List ℕ) (d : ℕ → K) :
    assignAt l (a :: t) d = assignAt (l.set a (d a)) t d := rfl

theorem assignAt_not_mem (l : List K) (idxs : List ℕ) (d : ℕ → K) (i : ℕ) (d0 : K)
    (h : i ∉ idxs) : (assignAt l idxs d).getD i d0 = l.getD i d0 := by
  induction idxs generalizing l with
  | nil => rfl
  | cons a t ih =>
    rw [assignAt_cons, ih _ (fun hm => h (List.mem_cons_of_mem a hm)),
      getD_set_ne _ _ _ _ _ (fun ha => h (by rw [← ha]; exact List.mem_cons_self a t))]

theorem assignAt_mem (l : List K) (idxs : List ℕ) (d : ℕ → K) (i : ℕ) (d0 : K)
    (hmem : i ∈ idxs) (hlt : i < l.length) :
    (assignAt l idxs d).getD i d0 = d i := by
  induction idxs generalizing l with
  | nil => cases hmem
  | cons a t ih =>
    rw [assignAt_cons]
    by_cases hit : i ∈ t
    · exact ih _ hit (by rw [List.length_set]; exact hlt)
    · have hai : a = i := by
        rcases List.mem_cons.mp hmem with h | h
        · exact h.symm
        · exact absurd h hit
      subst hai
      rw [assignAt_not_mem _ _ _ _ _ hit, getD_set_self _ _ _ _ hlt]

theorem getD_replicate_zero (n i : ℕ) : (List.replicate n (0 : K)).getD i 0 = 0 := by
  by_cases h : i < n
  · rw [getD_lt _ _ _ (by simpa using h), List.get_eq_getElem, List.getElem_replicate]
  · rw [List.getD_eq_getElem?_getD, List.getElem?_eq_none (by simpa using h)]
    rfl

/-- C6: `reset` zeroes every `qpos`/`qvel` entry and then overwrites only the
independent joints with the uniform draws (so dependent joints are exactly 0
before the consistency pass and are never sampled), overwrites every
activation with its `[0, 1]` draw, resets the effort term, performs a single
`forward` pass, and returns the observation of the post-pass state. -/
theorem reset_spec (fe : FixedEye K E) (simReset forward : Sim K → Sim K)
    (qposDraw qvelDraw : ℕ → K) (actDraw : List K)
    (hq : ∀ i, -(1 / 20) ≤ qposDraw i ∧ qposDraw i ≤ 1 / 20)
    (hv : ∀ i, -(1 / 20) ≤ qvelDraw i ∧ qvelDraw i ≤ 1 / 20)
    (ha : ∀ a ∈ actDraw, 0 ≤ a ∧ a ≤ 1) :
    (reset fe simReset forward qposDraw qvelDraw actDraw).2
      = get_observation (reset fe simReset forward qposDraw qvelDraw actDraw).1 ∧
    (reset fe simReset forward qposDraw qvelDraw actDraw).1.sim
      = forward (resetData { fe with sim := simReset fe.sim } qposDraw qvelDraw actDraw).sim ∧
    (∀ fe0 : FixedEye K E,
      (resetData fe0 qposDraw qvelDraw actDraw).sim.act = actDraw ∧
      (∀ a ∈ (resetData fe0 qposDraw qvelDraw actDraw).sim.act, 0 ≤ a ∧ a ≤ 1) ∧
      (resetData fe0 qposDraw qvelDraw actDraw).effort = fe0.effortReset fe0.effort ∧
      (∀ i, i ∉ fe0.independent_joints →
        (resetData fe0 qposDraw qvelDraw actDraw).sim.qpos.getD i 0 = 0 ∧
        (resetData fe0 qposDraw qvelDraw actDraw).sim.qvel.getD i 0 = 0) ∧
      (∀ i ∈ fe0.independent_joints, i < fe0.sim.qpos.length →
        (resetData fe0 qposDraw qvelDraw actDraw).sim.qpos.getD i 0 = qposDraw i ∧
        -(1 / 20) ≤ qposDraw i ∧ qposDraw i ≤ 1 / 20) ∧
      (∀ i ∈ fe0.independent_joints, i < fe0.sim.qvel.length →
        (resetData fe0 qposDraw qvelDraw actDraw).sim.qvel.getD i 0 = qvelDraw i ∧
        -(1 / 20) ≤ qvelDraw i ∧ qvelDraw i ≤ 1 / 20)) := by
  refine ⟨rfl, rfl, ?_⟩
  intro fe0
  refine ⟨rfl, ?_, rfl, ?_, ?_, ?_⟩
  · intro a haa
    exact ha a haa
  · intro i hi
    constructor
    · show (assignAt (List.replicate fe0.sim.qpos.length 0)
          fe0.independent_joints qposDraw).getD i 0 = 0
      rw [assignAt_not_mem _ _ _ _ _ hi, getD_replicate_zero]
    · show (assignAt (List.replicate fe0.sim.qvel.length 0)
          fe0.independent_joints qvelDraw).getD i 0 = 0
      rw [assignAt_not_mem _ _ _ _ _ hi, getD_replicate_zero]
  · intro i hi hlt
    refine ⟨?_, (hq i).1, (hq i).2⟩
    show (assignAt (List.replicate fe0.sim.qpos.length 0)
        fe0.independent_joints qposDraw).getD i 0 = qposDraw i
    rw [assignAt_mem _ _ _ _ _ hi (by simpa using hlt)]
  · intro i hi hlt
    refine ⟨?_, (hv i).1, (hv i).2⟩
    show (assignAt (List.replicate fe0.sim.qvel.length 0)
        fe0.independent_joints qvelDraw).getD i 0 = qvelDraw i
    rw [assignAt_mem _ _ _ _ _ hi (by simpa using hlt)]

/-- Witness for C6 on `feObs` with identity backend transformers and zero
and half draws. -/
theorem reset_spec_witness :
    (∀ i : ℕ, -(1 / 20 : ℚ) ≤ 0 ∧ (0 : ℚ) ≤ 1 / 20) ∧
    ((reset feObs id id (fun _ => 0) (fun _ => 0) [1 / 2]).2
      = get_observation (reset feObs id id (fun _ => 0) (fun _ => 0) [1 / 2]).1 ∧
    (reset feObs id id (fun _ => 0) (fun _ => 0) [1 / 2]).1.sim
      = id (resetData { feObs with sim := id feObs.sim } (fun _ => 0) (fun _ => 0)
          [1 / 2]).sim ∧
    (∀ fe0 : FixedEye ℚ ℕ,
      (resetData fe0 (fun _ => 0) (fun _ => 0) [1 / 2]).sim.act = [1 / 2] ∧
      (∀ a ∈ (resetData fe0 (fun _ => 0) (fun _ => 0) [1 / 2]).sim.act, 0 ≤ a ∧ a ≤ 1) ∧
      (resetData fe0 (fun _ => 0) (fun _ => 0) [1 / 2]).effort
        = fe0.effortReset fe0.effort ∧
      (∀ i, i ∉ fe0.independent_joints →
        (resetData fe0 (fun _ => 0) (fun _ => 0) [1 / 2]).sim.qpos.getD i 0 = 0 ∧
        (resetData fe0 (fun _ => 0) (fun _ => 0) [1 / 2]).sim.qvel.getD i 0 = 0) ∧
      (∀ i ∈ fe0.independent_joints, i < fe0.sim.qpos.length →
        (resetData fe0 (fun _ => 0) (fun _ => 0) [1 / 2]).sim.qpos.getD i 0 = 0 ∧
        -(1 / 20 : ℚ) ≤ 0 ∧ (0 : ℚ) ≤ 1 / 20) ∧
      (∀ i ∈ fe0.independent_joints, i < fe0.sim.qvel.length →
        (resetData fe0 (fun _ => 0) (fun _ => 0) [1 / 2]).sim.qvel.getD i 0 = 0 ∧
        -(1 / 20 : ℚ) ≤ 0 ∧ (0 : ℚ) ≤ 1 / 20))) := by
  have hb : ∀ i : ℕ, -(1 / 20 : ℚ) ≤ 0 ∧ (0 : ℚ) ≤ 1 / 20 := fun _ => ⟨by norm_num, by norm_num⟩
  exact ⟨hb, reset_spec feObs id id (fun _ => 0) (fun _ => 0) [1 / 2] hb hb
    (by intro a haa
        simp only [List.mem_cons, List.not_mem_nil, or_false] at haa
        rw [haa]
        exact ⟨by norm_num, by norm_num⟩)⟩

/-! ## C4: the shoulder-coupling coefficient -/

theorem shoulderCoef_eq (e : ℝ) :
    shoulderCoef Real.pi e = (2 * e - Real.pi) / Real.pi := by
  unfold shoulderCoef
  rw [← neg_div, show -(Real.pi - 2 * e) = 2 * e - Real.pi from by ring]

/-- C4: under a `patch*` variant every `set_ctrl` call writes the cached
constraint's coefficient entry `eq_data[idx, 1]` with
`-((π - 2·elevation)/π)` read off the current `shoulder_elv` position; as a
function of elevation this coefficient is continuous, lies in `[-1, 1]` on
`[0, π]`, and equals `-1` at `0` and `1` at `π`. -/
theorem shoulder_coef_update (fe : FixedEye ℝ E) (action : List ℝ)
    (hpatch : strStarts fe.shoulder_variant "patch" = true)
    (hpi : fe.piv = Real.pi)
    (hrow : fe.eq_ID_shoulder1_r2 < fe.sim.eq_data.length)
    (hcol : 1 < (fe.sim.eq_data.getD fe.eq_ID_shoulder1_r2 []).length) :
    eqDataAt (set_ctrl fe action).sim fe.eq_ID_shoulder1_r2 1
      = shoulderCoef Real.pi
          (fe.sim.qpos.getD (fe.joint_name2id "shoulder_elv") 0) ∧
    Continuous (shoulderCoef Real.pi) ∧
    (∀ e : ℝ, e ∈ Set.Icc 0 Real.pi → shoulderCoef Real.pi e ∈ Set.Icc (-1 : ℝ) 1) ∧
    shoulderCoef Real.pi 0 = -1 ∧
    shoulderCoef Real.pi Real.pi = 1 := by
  have hπ : (0 : ℝ) < Real.pi := Real.pi_pos
  refine ⟨?_, ?_, ?_, ?_, ?_⟩
  · unfold set_ctrl
    rw [if_pos hpatch]
    by_cases hv2 : fe.shoulder_variant = "patch-v2"
    · rw [if_pos hv2]
      show ((setMat fe.sim.eq_data fe.eq_ID_shoulder1_r2 1 _).getD
        fe.eq_ID_shoulder1_r2 []).getD 1 0 = _
      rw [setMat_get _ _ _ _ hrow hcol, hpi]
    · rw [if_neg hv2]
      show ((setMat fe.sim.eq_data fe.eq_ID_shoulder1_r2 1 _).getD
        fe.eq_ID_shoulder1_r2 []).getD 1 0 = _
      rw [setMat_get _ _ _ _ hrow hcol, hpi]
  · unfold shoulderCoef
    exact ((continuous_const.sub (continuous_const.mul continuous_id)).div_const _).neg
  · intro e he
    rw [Set.mem_Icc] at he
    rw [Set.mem_Icc, shoulderCoef_eq]
    constructor
    · rw [le_div_iff hπ]
      linarith [he.1]
    · rw [div_le_one hπ]
      linarith [he.2]
  · rw [shoulderCoef_eq]
    rw [show 2 * (0 : ℝ) - Real.pi = -Real.pi from by ring, neg_div,
      div_self hπ.ne']
  · rw [shoulderCoef_eq]
    rw [show 2 * Real.pi - Real.pi = Real.pi from by ring, div_self hπ.ne']

/-- A one-constraint `patch` environment over `ℝ`, witnessing C4
(noncomputable only because its `piv` field carries `Real.pi`). -/
noncomputable def feCoef : FixedEye ℝ ℕ where
  shoulder_variant := "patch"
  dependent_joints := ∅
  independent_joints := [0]
  eq_ID_shoulder1_r2 := 0
  render_observations := false
  na := 1
  ocular_image_height := 0
  ocular_image_width := 0
  joint_name2id := fun _ => 0
  piv := Real.pi
  effortReset := id
  sim := { qpos := [0], qvel := [0], qacc := [0], act := [0], ctrl := [0]
           eq_data := [[0, 0]], jnt_range := [(0, 0)], fingertip := (0, 0, 0)
           renderRGB := fun _ _ _ => 0, renderDepth := fun _ _ => 0 }
  effort := 0

/-- Witness for C4 on `feCoef`. -/
theorem shoulder_coef_update_witness :
    (strStarts feCoef.shoulder_variant "patch" = true ∧
     feCoef.piv = Real.pi ∧
     feCoef.eq_ID_shoulder1_r2 < feCoef.sim.eq_data.length ∧
     1 < (feCoef.sim.eq_data.getD feCoef.eq_ID_shoulder1_r2 []).length) ∧
    (eqDataAt (set_ctrl feCoef [1]).sim feCoef.eq_ID_shoulder1_r2 1
      = shoulderCoef Real.pi
          (feCoef.sim.qpos.getD (feCoef.joint_name2id "shoulder_elv") 0) ∧
     Continuous (shoulderCoef Real.pi) ∧
     (∀ e : ℝ, e ∈ Set.Icc 0 Real.pi → shoulderCoef Real.pi e ∈ Set.Icc (-1 : ℝ) 1) ∧
     shoulderCoef Real.pi 0 = -1 ∧
     shoulderCoef Real.pi Real.pi = 1) :=
  ⟨⟨by decide, rfl, by decide, by decide⟩,
   shoulder_coef_update feCoef [1] (by decide) rfl (by decide) (by decide)⟩

/-! ## C7: sine-wave trajectory rescaling -/

theorem shiftedMax_eq (sinf : K → K) (piv : K) (comps : List (K × K × K)) (dt : K) :
    shiftedMax sinf piv comps dt = rawMax sinf piv comps dt - rawMin sinf piv comps dt := by
  unfold shiftedMax rawMax
  exact (Finset.comp_sup'_eq_sup'_comp range_1001_ne
    (fun y => y - rawMin sinf piv comps dt)
    (fun x y => (max_sub_sub_right x y (rawMin sinf piv comps dt)).symm)).symm

/-- C7: `generate_sine_wave` returns exactly 1001 samples, and whenever the
raw five-component sine sum is not constant over those samples (its minimum
is below its maximum), the rescaled sequence lies inside
`[limits.1, limits.2]` and attains both endpoints — its minimum is
`limits.1` and its maximum is `limits.2`, for every draw of amplitudes,
frequencies and phases. -/
theorem sine_wave_rescaling (sinf : K → K) (piv dt : K)
    (comps : List (K × K × K)) (limits : K × K)
    (hlen : comps.length = 5)
    (hne : rawMin sinf piv comps dt < rawMax sinf piv comps dt)
    (hlim : limits.1 ≤ limits.2) :
    (generate_sine_wave sinf piv comps dt limits).length = 1001 ∧
    (∀ x ∈ generate_sine_wave sinf piv comps dt limits,
      limits.1 ≤ x ∧ x ≤ limits.2) ∧
    limits.1 ∈ generate_sine_wave sinf piv comps dt limits ∧
    limits.2 ∈ generate_sine_wave sinf piv comps dt limits := by
  have hS : shiftedMax sinf piv comps dt
      = rawMax sinf piv comps dt - rawMin sinf piv comps dt := shiftedMax_eq _ _ _ _
  have hSpos : 0 < rawMax sinf piv comps dt - rawMin sinf piv comps dt := by linarith
  have hscaled : ∀ n ∈ Finset.range 1001,
      limits.1 ≤ scaledSine sinf piv comps dt limits n ∧
      scaledSine sinf piv comps dt limits n ≤ limits.2 := by
    intro n hn
    have h1 : rawMin sinf piv comps dt ≤ rawSine sinf piv comps dt n :=
      Finset.inf'_le _ hn
    have h2 : rawSine sinf piv comps dt n ≤ rawMax sinf piv comps dt :=
      Finset.le_sup' _ hn
    unfold scaledSine
    rw [hS]
    have hx1 : 0 ≤ (rawSine sinf piv comps dt n - rawMin sinf piv comps dt)
        / (rawMax sinf piv comps dt - rawMin sinf piv comps dt) :=
      div_nonneg (by linarith) hSpos.le
    have hx2 : (rawSine sinf piv comps dt n - rawMin sinf piv comps dt)
        / (rawMax sinf piv comps dt - rawMin sinf piv comps dt) ≤ 1 := by
      rw [div_le_one hSpos]
      linarith
    constructor
    · have := mul_nonneg (sub_nonneg.mpr hlim) hx1
      linarith
    · have := mul_le_of_le_one_right (sub_nonneg.mpr hlim) hx2
      linarith
  refine ⟨by simp [generate_sine_wave], ?_, ?_, ?_⟩
  · intro x hx
    obtain ⟨n, hn, rfl⟩ := List.mem_map.mp hx
    exact hscaled n (Finset.mem_range.mpr (List.mem_range.mp hn))
  · obtain ⟨n0, hn0, hmin⟩ := Finset.exists_mem_eq_inf' range_1001_ne
      (rawSine sinf piv comps dt)
    have hval : scaledSine sinf piv comps dt limits n0 = limits.1 := by
      unfold scaledSine
      rw [show rawMin sinf piv comps dt = rawSine sinf piv comps dt n0 from hmin]
      simp
    exact List.mem_map.mpr ⟨n0, List.mem_range.mpr (Finset.mem_range.mp hn0), hval⟩
  · obtain ⟨n1, hn1, hmax⟩ := Finset.exists_mem_eq_sup' range_1001_ne
      (rawSine sinf piv comps dt)
    have hval : scaledSine sinf piv comps dt limits n1 = limits.2 := by
      unfold scaledSine
      rw [hS, show rawMax sinf piv comps dt = rawSine sinf piv comps dt n1 from hmax,
        div_self (by rw [← hmax]; exact hSpos.ne')]
      ring
    exact List.mem_map.mpr ⟨n1, List.mem_range.mpr (Finset.mem_range.mp hn1), hval⟩

/-- The five concrete components (amplitude 1, frequency 1, phase 0) used to
witness C7 with the identity standing for `sin` and `piv = 1`. -/
def compsW : List (ℚ × ℚ × ℚ) := List.replicate 5 (1, 1, 0)

theorem compsW_raw0 : rawSine (id : ℚ → ℚ) 1 compsW 1 0 = 0 := by
  norm_num [rawSine, compsW, List.map_replicate, List.sum_replicate]

theorem compsW_raw1 : rawSine (id : ℚ → ℚ) 1 compsW 1 1 = 10 := by
  norm_num [rawSine, compsW, List.map_replicate, List.sum_replicate]

theorem compsW_ne : rawMin (id : ℚ → ℚ) 1 compsW 1 < rawMax (id : ℚ → ℚ) 1 compsW 1 := by
  have h0 : rawMin (id : ℚ → ℚ) 1 compsW 1 ≤ rawSine (id : ℚ → ℚ) 1 compsW 1 0 :=
    Finset.inf'_le _ (Finset.mem_range.mpr (by norm_num))
  have h1 : rawSine (id : ℚ → ℚ) 1 compsW 1 1 ≤ rawMax (id : ℚ → ℚ) 1 compsW 1 :=
    Finset.le_sup' _ (Finset.mem_range.mpr (by norm_num))
  rw [compsW_raw0] at h0
  rw [compsW_raw1] at h1
  linarith

/-- Witness for C7 on `compsW` with limits `[0, 1]`. -/
theorem sine_wave_rescaling_witness :
    (compsW.length = 5 ∧
     rawMin (id : ℚ → ℚ) 1 compsW 1 < rawMax (id : ℚ → ℚ) 1 compsW 1 ∧
     ((0 : ℚ), (1 : ℚ)).1 ≤ ((0 : ℚ), (1 : ℚ)).2) ∧
    ((generate_sine_wave (id : ℚ → ℚ) 1 compsW 1 (0, 1)).length = 1001 ∧
     (∀ x ∈ generate_sine_wave (id : ℚ → ℚ) 1 compsW 1 (0, 1),
       ((0 : ℚ), (1 : ℚ)).1 ≤ x ∧ x ≤ ((0 : ℚ), (1 : ℚ)).2) ∧
     ((0 : ℚ), (1 : ℚ)).1 ∈ generate_sine_wave (id : ℚ → ℚ) 1 compsW 1 (0, 1) ∧
     ((0 : ℚ), (1 : ℚ)).2 ∈ generate_sine_wave (id : ℚ → ℚ) 1 compsW 1 (0, 1)) :=
  ⟨⟨rfl, compsW_ne, by norm_num⟩,
   sine_wave_rescaling (id : ℚ → ℚ) 1 1 compsW (0, 1) rfl compsW_ne (by norm_num)⟩

end UIB
